import Mathlib

/-!
Verification of `testalchemy_legacy.py` (SmartTeleMax/testalchemy-legacy).

The file shallowly embeds the library's data model and operations:

* sessions are modelled explicitly: the committed store is a list of rows,
  pending deletions a list, and the observer slots (`extension` /
  `extensions` attributes) optional fields;
* objects (ORM instances) are rows carrying a model-class tag and a
  primary-key tuple (the identity key);
* the stateful Python methods become pure state-passing functions, and
  fallible code returns `Except`.
-/

namespace Testalchemy

/-- A primary-key tuple, the second component of an identity key. -/
abbrev Ident := List Nat

/-- An ORM instance: its model class (tag) and its primary-key tuple.
`identity_key(instance=r)` is `(r.cls, r.ident)`. -/
structure Row where
  cls : Nat
  ident : Ident
  deriving DecidableEq, Repr

/-! ## Extension values and observer slots

`_append_extension` and the `__enter__`/`__exit__` methods of `Restorable`
and `DBHistory` manipulate the `extension` (SQLAlchemy 0.4) or
`extensions` (0.5–0.6) attribute of a session.  We model the values those
attributes can hold, an opaque observer object being a numbered `obj`. -/

/-- A value held by a session's `extension`/`extensions` attribute:
an opaque extension object, a `_ChainExtension` over a tuple of
extensions, or a Python list of extensions. -/
inductive EV where
  | obj (n : Nat)
  | chainE (xs : List EV)
  | listE (xs : List EV)

/-- The observer slots of a session object: `extension` is `some v` iff
`hasattr(session, 'extension')`, and likewise for `extensions`. -/
structure SessObs where
  extension : Option EV
  extensions : Option EV

/-- Errors `_append_extension` can raise: the `ValueError` of the final
branch, or the `TypeError` Python would raise on `old + [e]` when the
`extensions` attribute does not hold a list. -/
inductive ApErr where
  | valueError
  | typeError
  deriving DecidableEq, Repr

/-- Model of `_append_extension(session, extension)`: version 0.4 branch wraps the
old `extension` value together with the new one in a `_ChainExtension`;
version 0.5–0.6 branch appends to the `extensions` list; otherwise
`ValueError`.  Returns `(old_extension, new_extension)`. -/
def append_extension (s : SessObs) (e : EV) : Except ApErr (EV × EV) :=
  match s.extension with
  | some old => .ok (old, .chainE [old, e])
  | none =>
    match s.extensions with
    | some old =>
      match old with
      | .listE xs => .ok (old, .listE (xs ++ [e]))
      | _ => .error .typeError
    | none => .error .valueError

/-- Write to the observer slot chosen by the `hasattr(watch, 'extension')`
test: `watch.extension = v` when the attribute exists, else
`watch.extensions = v` (assignment creates the attribute if absent). -/
def writeObs (s : SessObs) (v : EV) : SessObs :=
  if s.extension.isSome then { s with extension := some v }
  else { s with extensions := some v }

/-- Read the observer slot that the `hasattr` test selects (the watched
session's observer chain). -/
def readObs (s : SessObs) : Option EV :=
  if s.extension.isSome then s.extension else s.extensions

/-- The extension-related state of a `Restorable` or `DBHistory` scope:
the snapshot `old_extension` taken at construction and the `extension`
value installed on entry. -/
structure ScopeExt where
  old_extension : EV
  extension : EV

/-- The `_append_extension` call shared by `Restorable.__init__` and
`DBHistory.__init__`: captures `(self.old_extension, self.extension)`, or
propagates the `ValueError`. -/
def scope_init (watch : SessObs) (e : EV) : Except ApErr ScopeExt :=
  (append_extension watch e).map fun p => ⟨p.1, p.2⟩

/-- Model of `__enter__`: install the new extension value on the watched session. -/
def scope_enter (sc : ScopeExt) (s : SessObs) : SessObs :=
  writeObs s sc.extension

/-- The observer-restoring step of `__exit__`: write back the snapshot. -/
def scope_exit_obs (sc : ScopeExt) (s : SessObs) : SessObs :=
  writeObs s sc.old_extension

/-! ## Session state for `Restorable`

We model a SQLAlchemy 0.5–0.6 style session (the `expunge_all` /
`autocommit` branch of the version shims): a committed store of rows,
the pending additions and deletions of the open unit of work, the
identity map consulted by `Query.get`, and the `autoflush` /
`autocommit` flags. -/

structure DB where
  committed : List Row
  pendingNew : List Row
  pendingDel : List Row
  identityMap : List Row
  autoflush : Bool
  autocommit : Bool
  txOpen : Bool
  deriving DecidableEq, Repr

/-- Errors the session can raise while deleting. -/
inductive SessErr where
  | notPersistent
  deriving DecidableEq, Repr

/-- Model of `db.query(cls).get(ident)`: the identity map is consulted first; on a
miss the committed store is searched for the row with that identity. -/
def query_get (db : DB) (cls : Nat) (ident : Ident) : Option Row :=
  match db.identityMap.find? (fun r => decide (r.cls = cls ∧ r.ident = ident)) with
  | some r => some r
  | none => db.committed.find? (fun r => decide (r.cls = cls ∧ r.ident = ident))

/-- Model of `db.rollback()`: discard the uncommitted changes of the unit of work. -/
def DB.rollback (db : DB) : DB :=
  { db with pendingNew := [], pendingDel := [], txOpen := false }

/-- Model of `db.expunge_all()` (`clear()` in version 0.4): empty the identity
map, detaching every managed instance from the session. -/
def DB.expunge_all (db : DB) : DB :=
  { db with identityMap := [] }

/-- Model of `db.delete(instance)`: mark a persistent instance for deletion; the
session refuses instances that are not in the database. -/
def DB.delete (db : DB) (r : Row) : Except SessErr DB :=
  if r ∈ db.committed then .ok { db with pendingDel := db.pendingDel ++ [r] }
  else .error .notPersistent

/-- Model of `db.commit()`: apply the pending deletions and additions to the
committed store and end the transaction. -/
def DB.commit (db : DB) : DB :=
  { db with
    committed := db.committed.filter (fun r => decide (r ∉ db.pendingDel)) ++ db.pendingNew,
    pendingNew := [], pendingDel := [], txOpen := false }

/-- Model of `db.close()`: expunge everything and release the transaction,
discarding whatever was still pending. -/
def DB.close (db : DB) : DB :=
  { db with identityMap := [], pendingNew := [], pendingDel := [], txOpen := false }

/-- Model of `_implicit_begin(session)`: a no-op on a non-autocommit session,
otherwise `session.begin()` opens a transaction. -/
def implicit_begin (db : DB) : DB :=
  if db.autocommit = false then db else { db with txOpen := true }

/-- The history dictionary of a `Restorable`: model class → recorded
primary-key tuples (a Python `dict` of `set`s as an association list). -/
abbrev HistD := List (Nat × List Ident)

/-- Model of `history.setdefault(cls, set()).add(ident)`. -/
def histAdd (hist : HistD) (c : Nat) (i : Ident) : HistD :=
  match hist with
  | [] => [(c, [i])]
  | (c', is) :: rest =>
    if c' = c then (c', if i ∈ is then is else is ++ [i]) :: rest
    else (c', is) :: histAdd rest c i

/-- Model of `_TraceNewObjectsExtension.after_flush`: record the identity key of
every newly persisted object of the flush into the history dictionary. -/
def trace_after_flush (hist : HistD) (new : List Row) : HistD :=
  new.foldl (fun h r => histAdd h r.cls r.ident) hist

/-- The inner loop of `Restorable.__exit__`: for each recorded ident of
class `c`, re-fetch the object and delete it if still present. -/
def delete_idents (d : DB) (c : Nat) (is : List Ident) : Except SessErr DB :=
  is.foldlM (fun d' i =>
    match query_get d' c i with
    | some inst => d'.delete inst
    | none => pure d') d

/-- The full deletion loop of `Restorable.__exit__` over the history
dictionary. -/
def delete_loop (d : DB) (hist : HistD) : Except SessErr DB :=
  hist.foldlM (fun d' p => delete_idents d' p.1 p.2) d

/-- Model of `Restorable.__exit__(type, value, traceback)` on a 0.5–0.6 session:
roll back, expunge all, save and disable autoflush, implicitly begin,
delete every still-present recorded object, commit, close, and restore
autoflush.  The exception information `exc` is ignored. -/
def restorable_exit (exc : Option (Nat × Nat)) (db : DB) (hist : HistD) :
    Except SessErr DB := do
  let _ := exc
  let db := db.rollback
  let db := db.expunge_all
  let old_autoflush := db.autoflush
  let db := { db with autoflush := false }
  let db := implicit_begin db
  let db ← delete_loop db hist
  let db := db.commit
  let db := db.close
  pure { db with autoflush := old_autoflush }

/-! ## Sample and `sample_property`

Attribute names are modelled as naturals ordered like the alphabetical
order Python's `dir()` uses on name strings; fixture objects are opaque
naturals.  A declared lazy attribute's computation is modelled by the
result value it produces; the event log records method executions,
`session.add` calls, and transaction begin/commit, in order. -/

/-- The result of a sample method: a single instance, or a list/tuple of
instances. -/
inductive MRes where
  | single (v : Nat)
  | many (vs : List Nat)
  deriving DecidableEq, Repr

/-- The instances `sample_property.__get__` passes to `session.add`:
each element of a list/tuple result, else the result itself. -/
def addItems : MRes → List Nat
  | .single v => [v]
  | .many vs => vs

/-- Observable session events of a `Sample`'s lifetime. -/
inductive SEv where
  | run (name : Nat)
  | add (v : Nat)
  | beginTx
  | commitTx
  deriving DecidableEq, Repr

/-- A `Sample` subclass: its declared lazy attributes in declaration
order, each with the result its method computes. -/
abbrev SampleCls := List (Nat × MRes)

/-- The mutable state of a `Sample` instance and its session: the
instance `__dict__` caching computed attributes, `used_properties`, the
session event log, and the session's `autocommit` flag. -/
structure SampleState where
  instDict : List (Nat × MRes)
  used : List Nat
  events : List SEv
  autocommit : Bool
  deriving DecidableEq, Repr

/-- Model of `getattr(inst, name)` for a declared lazy attribute.  `sample_property`
defines only `__get__`, so it is a non-data descriptor: an instance
`__dict__` entry shadows it and is returned unchanged.  On a miss,
`sample_property.__get__` runs the method, adds the result (each element
of a list/tuple, else the single object) to the session, records the name
in `used_properties`, and caches the result on the instance via
`setattr`.  `none` for names that are not declared attributes. -/
def sample_get (cls : SampleCls) (name : Nat) (s : SampleState) :
    Option (MRes × SampleState) :=
  match s.instDict.lookup name with
  | some v => some (v, s)
  | none =>
    match cls.lookup name with
    | some result =>
      some (result,
        { s with
          events := s.events ++ SEv.run name :: (addItems result).map SEv.add,
          used := if name ∈ s.used then s.used else s.used ++ [name],
          instDict := s.instDict ++ [(name, result)] })
    | none => none

/-- Model of `getattr(self, name)` discarding the value, as `create_all`'s `map`
does; a name that is not a declared attribute resolves elsewhere on the
instance with no session effect. -/
def getattr_force (cls : SampleCls) (name : Nat) (s : SampleState) : SampleState :=
  match sample_get cls name s with
  | some p => p.2
  | none => s

/-- Model of `_implicit_begin(session)` on the sample's session: a no-op on a
non-autocommit session, otherwise `session.begin()`. -/
def implicit_begin_s (s : SampleState) : SampleState :=
  if s.autocommit = false then s else { s with events := s.events ++ [SEv.beginTx] }

/-- Model of `dir(self)`: the sorted, duplicate-free names of the class and the
instance `__dict__` (only the declared attributes matter to the model;
other names resolve with no session effect). -/
def dirNames (cls : SampleCls) (s : SampleState) : List Nat :=
  List.insertionSort (fun a b => a ≤ b)
    ((cls.map Prod.fst ++ s.instDict.map Prod.fst).dedup)

/-- Model of `Sample.create_all`: `_implicit_begin(self.db)`, then
`map(lambda name: getattr(self, name), dir(self))` forcing every
attribute, then `self.db.commit()`. -/
def create_all (cls : SampleCls) (s : SampleState) : SampleState :=
  let s := implicit_begin_s s
  let s := (dirNames cls s).foldl (fun st n => getattr_force cls n st) s
  { s with events := s.events ++ [SEv.commitTx] }

/-- The order of method executions an event log records. -/
def runOrder (evs : List SEv) : List Nat :=
  evs.filterMap (fun e => match e with | SEv.run n => some n | _ => none)

/-! ## DBHistory

Python sets are modelled as lists and compared extensionally (by
membership); `set(...)` calls become `dedup`, `set.union` becomes list
union.  The derived ident dictionaries map a model class to the recorded
primary-key tuples, a missing key reading as the empty set (Python's
`.get(model_cls, set())`). -/

/-- The query modes of `DBHistory.last`. -/
inductive Mode where
  | created
  | updated
  | deleted
  deriving DecidableEq, Repr

/-- The state of a `DBHistory` tracker: the accumulated object sets, the
derived ident dictionaries, and the observer values captured by
`__init__` (`self.old_extension`, `self.extension`). -/
structure DBHist where
  created : List Row
  updated : List Row
  deleted : List Row
  created_idents : Nat → List Ident
  updated_idents : Nat → List Ident
  deleted_idents : Nat → List Ident
  old_extension : EV
  extension : EV

/-- Model of `populate_idents_dict(idents, objects)`: for each object,
`idents.setdefault(cls, set()).add(ident)` — pointwise, each class's set
gains the idents of the objects of that class. -/
def populate_idents_dict (idents : Nat → List Ident) (objects : List Row) :
    Nat → List Ident :=
  fun c => idents c ∪ (objects.filter (fun r => decide (r.cls = c))).map Row.ident

/-- Model of `_HistoryExtension.after_flush`: union the flush's new,
dirty and deleted identity sets into the cumulative sets, then populate
the ident dictionaries from the cumulative sets. -/
def history_after_flush (h : DBHist) (new dirty del : List Row) : DBHist :=
  let created := h.created ∪ new
  let updated := h.updated ∪ dirty
  let deleted := h.deleted ∪ del
  { h with
    created := created
    updated := updated
    deleted := deleted
    created_idents := populate_idents_dict h.created_idents created
    updated_idents := populate_idents_dict h.updated_idents updated
    deleted_idents := populate_idents_dict h.deleted_idents deleted }

/-- Model of `DBHistory.last(model_cls, mode)`: for `deleted`, the set of
cached detached instances of that class (no query); for
`created`/`updated`, the set of `session.query(model_cls).get(ident)`
results over the accumulated idents of that class — elements are
`Option Row` because `get` returns `None` for an identity no longer
present, while a cached deleted instance is always a row. -/
def DBHist.last (h : DBHist) (db : DB) (X : Nat) : Mode → List (Option Row)
  | .deleted => ((h.deleted.filter (fun r => decide (r.cls = X))).map some).dedup
  | .created => ((h.created_idents X).map (fun i => query_get db X i)).dedup
  | .updated => ((h.updated_idents X).map (fun i => query_get db X i)).dedup

/-- Assertion failures of the `assert_*` helpers, carrying the data the
Python message interpolates: the model class, the mode, and (for the
cardinality failure) the actual count. -/
inductive AssertErr where
  | noInstances (cls : Nat) (mode : Mode)
  | wrongCount (n : Nat) (cls : Nat) (mode : Mode)
  deriving DecidableEq, Repr

/-- Model of `DBHistory.assert_(model_cls, ident=None, mode)` at its
default `ident=None`, the path `assert_created_one` takes: fetch the
dataset via `last` and raise `AssertionError('No instances of %s were
%s')` when it is empty (the identity-filtering branch for a non-`None`
`ident` is exercised by no claim and is not modelled). -/
def assert_ (h : DBHist) (db : DB) (X : Nat) (mode : Mode) :
    Except AssertErr (List (Option Row)) :=
  let dataset := h.last db X mode
  if dataset = [] then .error (.noInstances X mode) else .ok dataset

/-- Model of `DBHistory.assert_one(dataset, model_cls, mode)`: raise
`AssertionError('%d instance(s) of %s %s, need only one')` unless the
dataset has exactly one element, which `dataset.pop()` returns. -/
def assert_one (dataset : List (Option Row)) (X : Nat) (mode : Mode) :
    Except AssertErr (Option Row) :=
  match dataset with
  | [x] => .ok x
  | _ => .error (.wrongCount dataset.length X mode)

/-- Model of `DBHistory.assert_created(model_cls)` at `ident=None`. -/
def assert_created (h : DBHist) (db : DB) (X : Nat) :
    Except AssertErr (List (Option Row)) :=
  assert_ h db X Mode.created

/-- Model of `DBHistory.assert_created_one(model_cls)`:
`assert_one(self.assert_created(model_cls), model_cls, 'created')`. -/
def assert_created_one (h : DBHist) (db : DB) (X : Nat) :
    Except AssertErr (Option Row) :=
  match assert_created h db X with
  | .error e => .error e
  | .ok ds => assert_one ds X Mode.created

/-- Model of `DBHistory.clear()`: reset the three object sets and the
three ident dictionaries to empty. -/
def DBHist.clear (h : DBHist) : DBHist :=
  { h with
    created := []
    deleted := []
    updated := []
    created_idents := fun _ => []
    updated_idents := fun _ => []
    deleted_idents := fun _ => [] }

/-! ## The `_ChainExtension` delegate dispatcher

Attribute names are naturals; a delegate's attribute of a given name is
either absent (`getattr(e, name, None)` yields `None`) or a hook, a
function from the call's arguments to a return value. -/

/-- A delegate extension: its attributes, absent names reading `none`. -/
structure Delegate where
  attrs : Nat → Option (List Nat → Nat)

/-- Body of `_ChainExtension.__getattribute__`: collect
`getattr(e, name, None)` over the delegates in construction order,
`filter(None, attrs)`, and raise `AttributeError(name)` when nothing is
left; otherwise the retained hooks, in order, are what the returned
wrapper will call. -/
def chain_getattribute (exts : List Delegate) (name : Nat) :
    Except Nat (List (List Nat → Nat)) :=
  let attrs := (exts.map (fun e => e.attrs name)).filterMap id
  if attrs.isEmpty then .error name else .ok attrs

/-- Semantics of the `wrapper` closure `__getattribute__` returns: call
every retained hook with the same arguments in order; the first component
lists the calls' return values as made (and discarded), the second is the
wrapper's own return value, Python `None`. -/
def wrapper_run (hooks : List (List Nat → Nat)) (args : List Nat) :
    List Nat × Option Nat :=
  (hooks.map (fun f => f args), none)

/-- Model of `Restorable.__init__`'s observer bookkeeping: the
`_append_extension(self.watch, extension)` call over the
`_TraceNewObjectsExtension` it builds. -/
def Restorable_init (watch : SessObs) (traceExt : EV) : Except ApErr ScopeExt :=
  scope_init watch traceExt

/-- Model of `DBHistory.__init__`'s observer bookkeeping: the
`_append_extension(self._target, extension)` call over the
`_HistoryExtension` it builds. -/
def DBHistory_init (target : SessObs) (histExt : EV) : Except ApErr ScopeExt :=
  scope_init target histExt

/-! ## Concrete instances used by witnesses and counterexamples -/

/-- A delegate whose attribute `5` is present (a hook returning the
argument count) and whose other attributes are absent. -/
def dlgA : Delegate :=
  ⟨fun n => if n = 5 then some (fun a => a.length) else none⟩

/-- A delegate with no attributes at all. -/
def dlgB : Delegate := ⟨fun _ => none⟩

/-- A tracker that recorded the creation of two instances of class `0`
with idents `[1]` and `[2]`. -/
def hC7 : DBHist where
  created := [⟨0, [1]⟩, ⟨0, [2]⟩]
  updated := []
  deleted := []
  created_idents := fun c => if c = 0 then [[1], [2]] else []
  updated_idents := fun _ => []
  deleted_idents := fun _ => []
  old_extension := .obj 0
  extension := .obj 1

/-- A session whose database holds no rows at all: both recorded created
instances of `hC7` have since been deleted. -/
def dbC7 : DB := ⟨[], [], [], [], true, false, false⟩

/-- A tracker that recorded the creation of one instance of class `0`
with ident `[5]`. -/
def hC7w : DBHist where
  created := [⟨0, [5]⟩]
  updated := []
  deleted := []
  created_idents := fun c => if c = 0 then [[5]] else []
  updated_idents := fun _ => []
  deleted_idents := fun _ => []
  old_extension := .obj 0
  extension := .obj 1

/-- A session whose database holds exactly the row `⟨0, [5]⟩`. -/
def dbC7w : DB := ⟨[⟨0, [5]⟩], [], [], [], true, false, false⟩

/-- A tracker with one accumulated created ident and one cached deleted
instance, used to exercise flush accumulation and `clear`. -/
def hAcc : DBHist where
  created := [⟨0, [1]⟩]
  updated := [⟨1, [2]⟩]
  deleted := [⟨2, [3]⟩]
  created_idents := fun c => if c = 0 then [[1]] else []
  updated_idents := fun c => if c = 1 then [[2]] else []
  deleted_idents := fun c => if c = 2 then [[3]] else []
  old_extension := .obj 7
  extension := .obj 8

/-- A `Sample` subclass declaring attribute `2` before attribute `1`:
declaration order `[2, 1]`, alphabetical (`dir`) order `[1, 2]`. -/
def clsC4 : SampleCls := [(2, .single 20), (1, .single 10)]

/-- A `Sample` subclass whose attribute `3` computes a single object and
whose attribute `1` computes a list of two objects. -/
def clsC4w : SampleCls := [(3, .single 7), (1, .many [4, 5])]

/-- A freshly constructed sample instance state on a non-autocommit
session: nothing cached, nothing logged. -/
def sFresh : SampleState := ⟨[], [], [], false⟩

/-- A session whose database holds the rows `⟨0, [1]⟩` and `⟨1, [2]⟩`. -/
def dbC1 : DB := ⟨[⟨0, [1]⟩, ⟨1, [2]⟩], [], [], [⟨0, [1]⟩], true, false, true⟩

/-- A `Restorable` history recording class `0` with idents `[1]` (still
present) and `[3]` (already gone from the database). -/
def histC1 : HistD := [(0, [[1], [3]])]

/-! ## Helper lemmas -/

theorem lookup_append_of_none {α β : Type} [BEq α] {l₁ : List (α × β)}
    (l₂ : List (α × β)) {a : α} (h : l₁.lookup a = none) :
    (l₁ ++ l₂).lookup a = l₂.lookup a := by
  induction l₁ with
  | nil => rfl
  | cons p t ih =>
    obtain ⟨k, b⟩ := p
    rw [List.cons_append, List.lookup_cons] at *
    rcases hak : (a == k) with _ | _ <;> simp only [hak] at h ⊢
    · exact ih h
    · exact absurd h (by simp)

theorem lookup_keys_exists {α β : Type} [BEq α] [LawfulBEq α]
    {l : List (α × β)} {a : α} (h : a ∈ l.map Prod.fst) :
    ∃ b, l.lookup a = some b := by
  induction l with
  | nil => simp at h
  | cons p t ih =>
    obtain ⟨k, b⟩ := p
    rw [List.lookup_cons]
    rcases hak : (a == k) with _ | _
    · refine ih ?_
      rcases List.mem_map.mp h with ⟨q, hq, hqa⟩
      rcases List.mem_cons.mp hq with rfl | hq'
      · exact absurd (beq_iff_eq.mpr hqa.symm) (by simp [hak])
      · exact List.mem_map.mpr ⟨q, hq', hqa⟩
    · exact ⟨b, rfl⟩

theorem lookup_of_mem_nodup {α β : Type} [BEq α] [LawfulBEq α]
    {l : List (α × β)} {a : α} {b : β}
    (hnd : (l.map Prod.fst).Nodup) (hm : (a, b) ∈ l) :
    l.lookup a = some b := by
  induction l with
  | nil => simp at hm
  | cons p t ih =>
    obtain ⟨k, c⟩ := p
    rw [List.lookup_cons]
    rcases List.mem_cons.mp hm with heq | hm'
    · obtain ⟨rfl, rfl⟩ := Prod.mk.injEq .. ▸ heq
      · simp
    · rcases hak : (a == k) with _ | _
      · exact ih (List.nodup_cons.mp hnd).2 hm'
      · exfalso
        have : a = k := beq_iff_eq.mp hak
        subst this
        exact (List.nodup_cons.mp hnd).1
          (List.mem_map.mpr ⟨(a, b), hm', rfl⟩)

/-! ## Claim theorems -/

/-- C9: for every session object that exposes neither an `extension`
attribute nor an `extensions` attribute, constructing a `Restorable` or a
`DBHistory` over it raises `ValueError` immediately at construction time
(`__init__` calls `_append_extension`, which raises); `__enter__` is a
separate, later step, so the error precedes scope entry. -/
theorem claim_C9_construction_value_error (s : SessObs) (e₁ e₂ : EV)
    (h1 : s.extension = none) (h2 : s.extensions = none) :
    Restorable_init s e₁ = .error .valueError ∧
    DBHistory_init s e₂ = .error .valueError := by
  constructor <;>
    simp [Restorable_init, DBHistory_init, scope_init, append_extension, h1, h2,
      Except.map]

/-- Witness for C9 at a session with neither observer attribute. -/
theorem claim_C9_witness :
    Restorable_init ⟨none, none⟩ (.obj 1) = .error .valueError ∧
    DBHistory_init ⟨none, none⟩ (.obj 2) = .error .valueError :=
  claim_C9_construction_value_error ⟨none, none⟩ (.obj 1) (.obj 2) rfl rfl

/-- C2: for a `Restorable` or `DBHistory` scope successfully constructed
over a watched session, exiting the scope restores the session's observer
chain (the attribute `readObs` reads) to exactly the value it had before
the scope was constructed.  The intermediate state `mid` is arbitrary
except that the body did not change which observer attribute the session
exposes, so under LIFO nesting — where inner scopes only rewrite the
existing slot — no observer installed inside the scope remains attached
afterwards. -/
theorem claim_C2_exit_restores_chain (s₀ mid : SessObs) (e : EV) (sc : ScopeExt)
    (hshape : mid.extension.isSome = s₀.extension.isSome) :
    (Restorable_init s₀ e = .ok sc →
      readObs (scope_exit_obs sc mid) = readObs s₀) ∧
    (DBHistory_init s₀ e = .ok sc →
      readObs (scope_exit_obs sc mid) = readObs s₀) := by
  have main : scope_init s₀ e = .ok sc →
      readObs (scope_exit_obs sc mid) = readObs s₀ := by
    intro hinit
    rcases hs : s₀.extension with _ | old
    · rcases hx : s₀.extensions with _ | old
      · simp [scope_init, append_extension, hs, hx, Except.map] at hinit
      · rcases old with n | xs | xs
        · simp [scope_init, append_extension, hs, hx, Except.map] at hinit
        · simp [scope_init, append_extension, hs, hx, Except.map] at hinit
        · simp only [scope_init, append_extension, hs, hx, Except.map,
            Except.ok.injEq] at hinit
          subst hinit
          have hmid : mid.extension = none := by
            rw [hs] at hshape
            exact Option.not_isSome_iff_eq_none.mp (by rw [hshape]; simp)
          simp [scope_exit_obs, writeObs, readObs, hmid, hs, hx]
    · simp only [scope_init, append_extension, hs, Except.map,
        Except.ok.injEq] at hinit
      subst hinit
      have hmids : mid.extension.isSome = true := by rw [hshape, hs]; simp
      simp [scope_exit_obs, writeObs, readObs, hmids, hs]
  exact ⟨main, main⟩

/-- Witness for C2: a version 0.4 style session; the scope is entered and
exited, and the observer chain reads back as the original. -/
theorem claim_C2_witness :
    readObs (scope_exit_obs ⟨.obj 0, .chainE [.obj 0, .obj 1]⟩
      (scope_enter ⟨.obj 0, .chainE [.obj 0, .obj 1]⟩ ⟨some (.obj 0), none⟩)) =
    readObs ⟨some (.obj 0), none⟩ :=
  (claim_C2_exit_restores_chain ⟨some (.obj 0), none⟩
    (scope_enter ⟨.obj 0, .chainE [.obj 0, .obj 1]⟩ ⟨some (.obj 0), none⟩)
    (.obj 1) ⟨.obj 0, .chainE [.obj 0, .obj 1]⟩ rfl).1 rfl

/-- C10: looking an attribute name up on a `_ChainExtension` raises
`AttributeError` exactly when every delegate's attribute of that name is
absent (or `None`); otherwise it yields a wrapper that, when invoked,
calls each delegate's present attribute in the delegates' construction
order with the same arguments, discarding the return values and
returning `None`. -/
theorem claim_C10_chain_dispatch (exts : List Delegate) (name : Nat)
    (args : List Nat) :
    (chain_getattribute exts name = .error name ↔
      ∀ e ∈ exts, e.attrs name = none) ∧
    ∀ hooks, chain_getattribute exts name = .ok hooks →
      wrapper_run hooks args =
        (exts.filterMap (fun e => (e.attrs name).map (fun f => f args)), none) := by
  have hfm : (exts.map (fun e => e.attrs name)).filterMap id =
      exts.filterMap (fun e => e.attrs name) := by
    rw [List.filterMap_map]
    rfl
  have hform : chain_getattribute exts name =
      if (exts.filterMap (fun e => e.attrs name)).isEmpty then .error name
      else .ok (exts.filterMap (fun e => e.attrs name)) := by
    rw [chain_getattribute, hfm]
  constructor
  · rw [hform]
    rcases he : (exts.filterMap (fun e => e.attrs name)).isEmpty with _ | _
    · simp only [he, Bool.false_eq_true, if_false]
      rw [List.isEmpty_eq_false] at he
      constructor
      · intro h; exact absurd h (by simp)
      · intro hall
        exact absurd (List.filterMap_eq_nil_iff.mpr hall) he
    · simp only [he, if_true]
      rw [List.isEmpty_iff] at he
      simp only [eq_self_iff_true, true_iff]
      exact List.filterMap_eq_nil_iff.mp he
  · intro hooks hok
    rw [hform] at hok
    rcases he : (exts.filterMap (fun e => e.attrs name)).isEmpty with _ | _ <;>
      simp only [he, Bool.false_eq_true, if_false, if_true] at hok
    · rw [Except.ok.injEq] at hok
      subst hok
      rw [wrapper_run, List.map_filterMap]
    · exact absurd hok (by simp)

/-- Witness for C10: a two-delegate chain where only the first delegate
has attribute `5`; the wrapper calls it on the arguments. -/
theorem claim_C10_witness :
    wrapper_run [fun a => a.length] [7, 8] =
      ([dlgA, dlgB].filterMap (fun e => (e.attrs 5).map (fun f => f [7, 8])), none) :=
  (claim_C10_chain_dispatch [dlgA, dlgB] 5 [7, 8]).2 [fun a => a.length] rfl

/-- C5: a flush event only grows the accumulated state — afterwards the
created/updated/deleted sets are exactly the union of their old values
with the objects observed in that flush, and the derived ident
dictionaries are (pointwise) supersets of their old values. -/
theorem claim_C5_flush_monotone (h : DBHist) (new dirty del : List Row) :
    (∀ r, r ∈ (history_after_flush h new dirty del).created ↔
      r ∈ h.created ∨ r ∈ new) ∧
    (∀ r, r ∈ (history_after_flush h new dirty del).updated ↔
      r ∈ h.updated ∨ r ∈ dirty) ∧
    (∀ r, r ∈ (history_after_flush h new dirty del).deleted ↔
      r ∈ h.deleted ∨ r ∈ del) ∧
    (∀ c, h.created_idents c ⊆ (history_after_flush h new dirty del).created_idents c) ∧
    (∀ c, h.updated_idents c ⊆ (history_after_flush h new dirty del).updated_idents c) ∧
    (∀ c, h.deleted_idents c ⊆ (history_after_flush h new dirty del).deleted_idents c) := by
  refine ⟨?_, ?_, ?_, ?_, ?_, ?_⟩ <;>
    simp [history_after_flush, populate_idents_dict, List.mem_union_iff,
      List.subset_def] <;>
    intro c i hi <;>
    exact Or.inl hi

/-- Witness for C5 at a concrete tracker and flush: the flushed row joins
the created set and the previously accumulated ident stays recorded. -/
theorem claim_C5_witness :
    (⟨0, [9]⟩ : Row) ∈ (history_after_flush hAcc [⟨0, [9]⟩] [] []).created ∧
    [1] ∈ (history_after_flush hAcc [⟨0, [9]⟩] [] []).created_idents 0 :=
  ⟨((claim_C5_flush_monotone hAcc [⟨0, [9]⟩] [] []).1 ⟨0, [9]⟩).mpr
      (Or.inr (by simp)),
   (claim_C5_flush_monotone hAcc [⟨0, [9]⟩] [] []).2.2.2.1 0 (by decide)⟩

/-- C8: `clear()` resets the created/updated/deleted sets and the three
derived ident dictionaries to empty and changes nothing else — the
observer values captured at construction are untouched, and a flush after
`clear()` accumulates exactly the objects it observes. -/
theorem claim_C8_clear_resets (h : DBHist) (new dirty del : List Row) :
    h.clear.created = [] ∧ h.clear.updated = [] ∧ h.clear.deleted = [] ∧
    (∀ c, h.clear.created_idents c = [] ∧ h.clear.updated_idents c = [] ∧
      h.clear.deleted_idents c = []) ∧
    h.clear.old_extension = h.old_extension ∧
    h.clear.extension = h.extension ∧
    (∀ r, r ∈ (history_after_flush h.clear new dirty del).created ↔ r ∈ new) ∧
    (∀ r, r ∈ (history_after_flush h.clear new dirty del).updated ↔ r ∈ dirty) ∧
    (∀ r, r ∈ (history_after_flush h.clear new dirty del).deleted ↔ r ∈ del) := by
  refine ⟨rfl, rfl, rfl, fun c => ⟨rfl, rfl, rfl⟩, rfl, rfl, ?_, ?_, ?_⟩ <;>
    simp [DBHist.clear, history_after_flush, List.mem_union_iff]

/-- C6: `last(X, mode)` for `created`/`updated` is the set of results of
re-querying the session for each accumulated identity of type `X`, and
for `deleted` the set of cached detached instances of type `X` — the
latter independent of the session's state (no re-query). -/
theorem claim_C6_last (h : DBHist) (db db2 : DB) (X : Nat) :
    (∀ x, x ∈ h.last db X Mode.created ↔
      ∃ i, i ∈ h.created_idents X ∧ query_get db X i = x) ∧
    (∀ x, x ∈ h.last db X Mode.updated ↔
      ∃ i, i ∈ h.updated_idents X ∧ query_get db X i = x) ∧
    (∀ x, x ∈ h.last db X Mode.deleted ↔
      ∃ r, r ∈ h.deleted ∧ r.cls = X ∧ some r = x) ∧
    h.last db X Mode.deleted = h.last db2 X Mode.deleted := by
  refine ⟨?_, ?_, ?_, rfl⟩ <;>
    intro x <;>
    simp [DBHist.last, List.mem_dedup, List.mem_map, List.mem_filter, and_assoc]

/-- C3: first access to a declared lazy attribute that is not yet cached
runs its computation once, persists each resulting instance into the
session, and caches the result on the instance; every later access
returns the identical cached value with the state unchanged, so the
computation and the persistence each happen exactly once per instance
lifetime. -/
theorem sample_get_miss {cls : SampleCls} {name : Nat} {m : MRes}
    {s : SampleState}
    (hc : s.instDict.lookup name = none) (hm : cls.lookup name = some m) :
    sample_get cls name s = some (m,
      { s with
        events := s.events ++ SEv.run name :: (addItems m).map SEv.add,
        used := if name ∈ s.used then s.used else s.used ++ [name],
        instDict := s.instDict ++ [(name, m)] }) := by
  rw [sample_get, hc, hm]

theorem sample_get_hit {cls : SampleCls} {name : Nat} {m : MRes}
    {s : SampleState} (hc : s.instDict.lookup name = some m) :
    sample_get cls name s = some (m, s) := by
  rw [sample_get, hc]

theorem claim_C3_lazy_memoized (cls : SampleCls) (name : Nat) (m : MRes)
    (s : SampleState)
    (hc : s.instDict.lookup name = none) (hm : cls.lookup name = some m) :
    ∃ s₁, sample_get cls name s = some (m, s₁) ∧
      s₁.events = s.events ++ SEv.run name :: (addItems m).map SEv.add ∧
      s₁.instDict.lookup name = some m ∧
      sample_get cls name s₁ = some (m, s₁) ∧
      ∀ k, (fun st => getattr_force cls name st)^[k] s₁ = s₁ := by
  have hlook : (s.instDict ++ [(name, m)]).lookup name = some m := by
    rw [lookup_append_of_none _ hc, List.lookup_cons]
    simp
  refine ⟨_, sample_get_miss hc hm, rfl, hlook, sample_get_hit hlook, ?_⟩
  intro k
  induction k with
  | zero => rfl
  | succ k ih =>
    rw [Function.iterate_succ_apply', ih, getattr_force, sample_get_hit hlook]

/-- Witness for C3: a sample class declaring attribute `0` computing
object `3`, accessed from a fresh instance. -/
theorem claim_C3_witness :
    ∃ s₁, sample_get [(0, MRes.single 3)] 0 sFresh = some (MRes.single 3, s₁) ∧
      s₁.events = sFresh.events ++ SEv.run 0 :: (addItems (MRes.single 3)).map SEv.add ∧
      s₁.instDict.lookup 0 = some (MRes.single 3) ∧
      sample_get [(0, MRes.single 3)] 0 s₁ = some (MRes.single 3, s₁) ∧
      ∀ k, (fun st => getattr_force [(0, MRes.single 3)] 0 st)^[k] s₁ = s₁ :=
  claim_C3_lazy_memoized [(0, MRes.single 3)] 0 (MRes.single 3) sFresh rfl rfl

theorem lookup_append_of_right_none {α β : Type} [BEq α] (l₁ : List (α × β))
    {l₂ : List (α × β)} {a : α} (h : l₂.lookup a = none) :
    (l₁ ++ l₂).lookup a = l₁.lookup a := by
  induction l₁ with
  | nil => exact h
  | cons p t ih =>
    obtain ⟨k, b⟩ := p
    rw [List.cons_append, List.lookup_cons, List.lookup_cons]
    rcases hak : (a == k) with _ | _
    · exact ih
    · rfl

theorem runOrder_append (l₁ l₂ : List SEv) :
    runOrder (l₁ ++ l₂) = runOrder l₁ ++ runOrder l₂ :=
  List.filterMap_append _ _ _

theorem runOrder_adds (vs : List Nat) : runOrder (vs.map SEv.add) = [] := by
  induction vs with
  | nil => rfl
  | cons v t ih =>
    rw [List.map_cons, runOrder, List.filterMap_cons]
    exact ih

theorem runOrder_run_cons (n : Nat) (l : List SEv) :
    runOrder (SEv.run n :: l) = n :: runOrder l := by
  simp [runOrder, List.filterMap_cons]

theorem force_fold_spec (cls : SampleCls) (names : List Nat) (s : SampleState)
    (hnd : names.Nodup)
    (hdecl : ∀ n, n ∈ names → n ∈ cls.map Prod.fst)
    (hfresh : ∀ n, n ∈ names → s.instDict.lookup n = none) :
    runOrder ((names.foldl (fun st n => getattr_force cls n st) s).events) =
      runOrder s.events ++ names ∧
    (∀ n, n ∈ names → ∃ m, cls.lookup n = some m ∧
      (names.foldl (fun st n => getattr_force cls n st) s).instDict.lookup n = some m) ∧
    (∀ k, k ∉ names →
      (names.foldl (fun st n => getattr_force cls n st) s).instDict.lookup k =
        s.instDict.lookup k) := by
  induction names generalizing s with
  | nil => simp
  | cons n t ih =>
    obtain ⟨m, hm⟩ := lookup_keys_exists (hdecl n (List.mem_cons_self n t))
    have hc := hfresh n (List.mem_cons_self n t)
    have hnmem : n ∉ t := (List.nodup_cons.mp hnd).1
    have hstep : getattr_force cls n s = { s with
        events := s.events ++ SEv.run n :: (addItems m).map SEv.add,
        used := if n ∈ s.used then s.used else s.used ++ [n],
        instDict := s.instDict ++ [(n, m)] } := by
      rw [getattr_force, sample_get_miss hc hm]
    have hlook₁ : ∀ n', n' ≠ n →
        (s.instDict ++ [(n, m)]).lookup n' = s.instDict.lookup n' := by
      intro n' hne
      refine lookup_append_of_right_none _ ?_
      rw [List.lookup_cons]
      simp [beq_eq_false_iff_ne.mpr hne, List.lookup]
    have hfold : (n :: t).foldl (fun st n => getattr_force cls n st) s =
        t.foldl (fun st n => getattr_force cls n st) (getattr_force cls n s) := rfl
    obtain ⟨ih1, ih2, ih3⟩ := ih { s with
        events := s.events ++ SEv.run n :: (addItems m).map SEv.add,
        used := if n ∈ s.used then s.used else s.used ++ [n],
        instDict := s.instDict ++ [(n, m)] } (List.nodup_cons.mp hnd).2
      (fun n' hn' => hdecl n' (List.mem_cons_of_mem n hn'))
      (fun n' hn' => by
        have hne : n' ≠ n := fun hEq => hnmem (hEq ▸ hn')
        show (s.instDict ++ [(n, m)]).lookup n' = none
        rw [hlook₁ n' hne]
        exact hfresh n' (List.mem_cons_of_mem n hn'))
    have hs₁n : ({ s with
        events := s.events ++ SEv.run n :: (addItems m).map SEv.add,
        used := if n ∈ s.used then s.used else s.used ++ [n],
        instDict := s.instDict ++ [(n, m)] } : SampleState).instDict.lookup n
        = some m := by
      show (s.instDict ++ [(n, m)]).lookup n = some m
      rw [lookup_append_of_none _ hc, List.lookup_cons]
      simp
    rw [hfold, hstep]
    refine ⟨?_, ?_, ?_⟩
    · rw [ih1]
      show runOrder (s.events ++ SEv.run n :: (addItems m).map SEv.add) ++ t =
        runOrder s.events ++ n :: t
      rw [runOrder_append, runOrder_run_cons, runOrder_adds]
      simp
    · intro n' hn'
      rcases List.mem_cons.mp hn' with rfl | hn't
      · exact ⟨m, hm, by rw [ih3 n' hnmem]; exact hs₁n⟩
      · exact ih2 n' hn't
    · intro k hk
      have hkt : k ∉ t := fun h => hk (List.mem_cons_of_mem n h)
      have hkn : k ≠ n := fun h => hk (h ▸ List.mem_cons_self n t)
      rw [ih3 k hkt]
      show (s.instDict ++ [(n, m)]).lookup k = s.instDict.lookup k
      exact hlook₁ k hkn

/-- C4 counterexample: `create_all` does not force the declared lazy
attributes in declaration order.  `clsC4` declares attribute `2` before
attribute `1`, but `create_all` iterates `dir(self)`, whose names are
sorted, so the computations run as `[1, 2]`, not `[2, 1]`. -/
theorem claim_C4_counterexample :
    runOrder (create_all clsC4 sFresh).events = [1, 2] ∧
    clsC4.map Prod.fst = [2, 1] ∧
    runOrder (create_all clsC4 sFresh).events ≠ clsC4.map Prod.fst := by
  decide

/-- C4 (amended): on a freshly constructed `Sample` instance,
`create_all` forces the computation of every declared lazy attribute —
in the sorted order of attribute names that `dir()` yields, not in
declaration order — and then commits the session. -/
theorem claim_C4_amended (cls : SampleCls) (s : SampleState)
    (hnd : (cls.map Prod.fst).Nodup) (h1 : s.instDict = []) (h2 : s.events = []) :
    ∃ pre, (create_all cls s).events = pre ++ [SEv.commitTx] ∧
      runOrder pre = List.insertionSort (fun a b => a ≤ b) (cls.map Prod.fst) ∧
      ∀ p, p ∈ cls → (create_all cls s).instDict.lookup p.1 = some p.2 := by
  have hdir : dirNames cls (implicit_begin_s s) =
      List.insertionSort (fun a b => a ≤ b) (cls.map Prod.fst) := by
    have hinst : (implicit_begin_s s).instDict = [] := by
      rw [implicit_begin_s]; split <;> simp [h1]
    rw [dirNames, hinst]
    simp [List.dedup_eq_self.mpr hnd]
  have hperm : (List.insertionSort (fun a b => a ≤ b) (cls.map Prod.fst)).Perm
      (cls.map Prod.fst) := List.perm_insertionSort _ _
  obtain ⟨f1, f2, f3⟩ := force_fold_spec cls
    (List.insertionSort (fun a b => a ≤ b) (cls.map Prod.fst))
    (implicit_begin_s s)
    (hperm.nodup_iff.mpr hnd)
    (fun n hn => hperm.mem_iff.mp hn)
    (fun n _ => by
      have hinst : (implicit_begin_s s).instDict = [] := by
        rw [implicit_begin_s]; split <;> simp [h1]
      rw [hinst]; rfl)
  have hrun0 : runOrder (implicit_begin_s s).events = [] := by
    rw [implicit_begin_s]; split <;> simp [h2, runOrder, List.filterMap]
  refine ⟨((List.insertionSort (fun a b => a ≤ b) (cls.map Prod.fst)).foldl
      (fun st n => getattr_force cls n st) (implicit_begin_s s)).events,
      ?_, ?_, ?_⟩
  · rw [create_all, hdir]
  · rw [f1, hrun0, List.nil_append]
  · intro p hp
    have hmemn : p.1 ∈ List.insertionSort (fun a b => a ≤ b) (cls.map Prod.fst) :=
      hperm.mem_iff.mpr (List.mem_map.mpr ⟨p, hp, rfl⟩)
    obtain ⟨m, hm, hlook⟩ := f2 p.1 hmemn
    have hm' : cls.lookup p.1 = some p.2 := lookup_of_mem_nodup hnd (by
      rcases p with ⟨a, b⟩; exact hp)
    rw [hm'] at hm
    injection hm with hm
    have hcd : (create_all cls s).instDict =
        ((List.insertionSort (fun a b => a ≤ b) (cls.map Prod.fst)).foldl
          (fun st n => getattr_force cls n st) (implicit_begin_s s)).instDict := by
      rw [create_all, hdir]
    rw [hcd, hlook, hm]

/-- Witness for C4 (amended) at the concrete class `clsC4w`. -/
theorem claim_C4_witness :
    ∃ pre, (create_all clsC4w sFresh).events = pre ++ [SEv.commitTx] ∧
      runOrder pre =
        List.insertionSort (fun a b : Nat => a ≤ b) (clsC4w.map Prod.fst) ∧
      ∀ p, p ∈ clsC4w → (create_all clsC4w sFresh).instDict.lookup p.1 = some p.2 :=
  claim_C4_amended clsC4w sFresh (by decide) rfl rfl

/-- C7 counterexample: two instances of class `0` were created (the
tracker holds two created idents and two created rows), but both were
deleted from the database afterwards, so re-querying yields `None` for
each; the dataset collapses to the one-element set containing `None` and
`assert_created_one` returns `ok None` instead of raising. -/
theorem claim_C7_counterexample :
    hC7.created = [⟨0, [1]⟩, ⟨0, [2]⟩] ∧
    (hC7.created_idents 0).length = 2 ∧
    assert_created_one hC7 dbC7 0 = .ok none :=
  ⟨rfl, rfl, rfl⟩

/-- C7 (amended): `assert_created_one(X)` judges the dataset obtained by
re-querying each accumulated created identity of `X`: if no identity of
`X` was recorded (in particular when zero instances were created), or the
dataset is empty, it raises reporting the model type and the mode; if the
dataset has exactly one element it returns it; if the dataset has two or
more elements it raises reporting the actual count, the model type, and
the mode.  (Created instances that were since deleted re-query as `None`,
so the dataset's cardinality can differ from the number of instances
created.) -/
theorem claim_C7_amended (h : DBHist) (db : DB) (X : Nat) :
    (h.created_idents X = [] →
      assert_created_one h db X = .error (.noInstances X Mode.created)) ∧
    (h.last db X Mode.created = [] →
      assert_created_one h db X = .error (.noInstances X Mode.created)) ∧
    (∀ x, h.last db X Mode.created = [x] →
      assert_created_one h db X = .ok x) ∧
    (∀ x y t, h.last db X Mode.created = x :: y :: t →
      assert_created_one h db X =
        .error (.wrongCount (x :: y :: t).length X Mode.created)) := by
  have hempty : h.last db X Mode.created = [] →
      assert_created_one h db X = .error (.noInstances X Mode.created) := by
    intro hl
    simp [assert_created_one, assert_created, assert_, hl]
  refine ⟨?_, hempty, ?_, ?_⟩
  · intro h0
    refine hempty ?_
    show ((h.created_idents X).map (fun i => query_get db X i)).dedup = []
    rw [h0]
    rfl
  · intro x hl
    simp [assert_created_one, assert_created, assert_, hl, assert_one]
  · intro x y t hl
    simp [assert_created_one, assert_created, assert_, hl, assert_one]

/-- Witness for C7 (amended): one created instance of class `0`, still
live in the database; `assert_created_one` returns it. -/
theorem claim_C7_witness :
    assert_created_one hC7w dbC7w 0 = .ok (some ⟨0, [5]⟩) :=
  (claim_C7_amended hC7w dbC7w 0).2.2.1 (some ⟨0, [5]⟩) (by decide)

theorem query_get_of_no_map {d : DB} (h : d.identityMap = []) (c : Nat) (i : Ident) :
    query_get d c i = d.committed.find? (fun r => decide (r.cls = c ∧ r.ident = i)) := by
  rw [query_get, h]
  rfl

theorem row_eq_of_key {r r' : Row} (h1 : r.cls = r'.cls) (h2 : r.ident = r'.ident) :
    r = r' := by
  cases r; cases r'; simp_all

theorem delete_idents_spec (c : Nat) (is : List Ident) (d : DB)
    (hmap : d.identityMap = []) :
    ∃ d', delete_idents d c is = .ok d' ∧
      d'.committed = d.committed ∧
      d'.identityMap = [] ∧
      d'.pendingNew = d.pendingNew ∧
      d'.autoflush = d.autoflush ∧
      d'.autocommit = d.autocommit ∧
      d'.txOpen = d.txOpen ∧
      (∀ r, r ∈ d'.pendingDel ↔
        r ∈ d.pendingDel ∨ (r ∈ d.committed ∧ r.cls = c ∧ r.ident ∈ is)) := by
  induction is generalizing d with
  | nil =>
    exact ⟨d, rfl, rfl, hmap, rfl, rfl, rfl, rfl, fun r => by simp⟩
  | cons i t ih =>
    have hq := query_get_of_no_map hmap c i
    rcases hfind : d.committed.find? (fun r => decide (r.cls = c ∧ r.ident = i))
      with _ | inst
    · have hnone : ∀ r, r ∈ d.committed → ¬(r.cls = c ∧ r.ident = i) := by
        intro r hr
        have := List.find?_eq_none.mp hfind r hr
        simpa using this
      have hstep : delete_idents d c (i :: t) = delete_idents d c t := by
        rw [delete_idents, List.foldlM_cons, hq, hfind]
        rfl
      obtain ⟨d', heq, h1, h2, h3, h4, h5, h6, h7⟩ := ih d hmap
      refine ⟨d', by rw [hstep]; exact heq, h1, h2, h3, h4, h5, h6, ?_⟩
      intro r
      rw [h7 r]
      constructor
      · rintro (hp | ⟨hc', hcls, hmem⟩)
        · exact Or.inl hp
        · exact Or.inr ⟨hc', hcls, List.mem_cons_of_mem i hmem⟩
      · rintro (hp | ⟨hc', hcls, hmem⟩)
        · exact Or.inl hp
        · rcases List.mem_cons.mp hmem with hEq | hmt
          · exact absurd ⟨hcls, hEq⟩ (hnone r hc')
          · exact Or.inr ⟨hc', hcls, hmt⟩
    · have hkey : inst.cls = c ∧ inst.ident = i := by
        have := List.find?_some hfind
        simpa using this
      have hmem : inst ∈ d.committed := List.mem_of_find?_eq_some hfind
      have hdel : d.delete inst = .ok { d with pendingDel := d.pendingDel ++ [inst] } := by
        rw [DB.delete, if_pos hmem]
      have hstep : delete_idents d c (i :: t) =
          delete_idents { d with pendingDel := d.pendingDel ++ [inst] } c t := by
        rw [delete_idents, List.foldlM_cons, hq, hfind]
        show (d.delete inst) >>= _ = _
        rw [hdel]
        rfl
      obtain ⟨d', heq, h1, h2, h3, h4, h5, h6, h7⟩ :=
        ih { d with pendingDel := d.pendingDel ++ [inst] } hmap
      refine ⟨d', by rw [hstep]; exact heq, h1, h2, h3, h4, h5, h6, ?_⟩
      intro r
      rw [h7 r]
      show r ∈ d.pendingDel ++ [inst] ∨ (r ∈ d.committed ∧ r.cls = c ∧ r.ident ∈ t) ↔ _
      rw [List.mem_append, List.mem_singleton]
      constructor
      · rintro ((hp | rfl) | ⟨hc', hcls, hmt⟩)
        · exact Or.inl hp
        · exact Or.inr ⟨hmem, hkey.1, hkey.2 ▸ List.mem_cons_self i t⟩
        · exact Or.inr ⟨hc', hcls, List.mem_cons_of_mem i hmt⟩
      · rintro (hp | ⟨hc', hcls, hmem'⟩)
        · exact Or.inl (Or.inl hp)
        · rcases List.mem_cons.mp hmem' with hEq | hmt
          · exact Or.inl (Or.inr (row_eq_of_key (hcls.trans hkey.1.symm)
              (hEq.trans hkey.2.symm)))
          · exact Or.inr ⟨hc', hcls, hmt⟩

theorem delete_loop_spec (hist : HistD) (d : DB) (hmap : d.identityMap = []) :
    ∃ d', delete_loop d hist = .ok d' ∧
      d'.committed = d.committed ∧
      d'.identityMap = [] ∧
      d'.pendingNew = d.pendingNew ∧
      d'.autoflush = d.autoflush ∧
      d'.autocommit = d.autocommit ∧
      d'.txOpen = d.txOpen ∧
      (∀ r, r ∈ d'.pendingDel ↔
        r ∈ d.pendingDel ∨
          (r ∈ d.committed ∧ ∃ is, (r.cls, is) ∈ hist ∧ r.ident ∈ is)) := by
  induction hist generalizing d with
  | nil =>
    exact ⟨d, rfl, rfl, hmap, rfl, rfl, rfl, rfl, fun r => by simp⟩
  | cons p t ih =>
    obtain ⟨c, is⟩ := p
    obtain ⟨d₁, heq₁, g1, g2, g3, g4, g5, g6, g7⟩ := delete_idents_spec c is d hmap
    obtain ⟨d', heq', h1, h2, h3, h4, h5, h6, h7⟩ := ih d₁ g2
    have hstep : delete_loop d ((c, is) :: t) = delete_loop d₁ t := by
      rw [delete_loop, List.foldlM_cons]
      show (delete_idents d c is) >>= _ = _
      rw [heq₁]
      rfl
    refine ⟨d', by rw [hstep]; exact heq', h1.trans g1, h2, h3.trans g3,
      h4.trans g4, h5.trans g5, h6.trans g6, ?_⟩
    intro r
    rw [h7 r, g7 r, g1]
    constructor
    · rintro ((hp | ⟨hc', hcls, hmi⟩) | ⟨hc', is', hin, hmi⟩)
      · exact Or.inl hp
      · exact Or.inr ⟨hc', is, by rw [hcls]; exact List.mem_cons_self _ _, hmi⟩
      · exact Or.inr ⟨hc', is', List.mem_cons_of_mem (c, is) hin, hmi⟩
    · rintro (hp | ⟨hc', is', hin, hmi⟩)
      · exact Or.inl (Or.inl hp)
      · rcases List.mem_cons.mp hin with hEq | hmt
        · have hcc : r.cls = c := congrArg Prod.fst hEq
          have hss : is' = is := congrArg Prod.snd hEq
          exact Or.inl (Or.inr ⟨hc', hcc, hss ▸ hmi⟩)
        · exact Or.inr ⟨hc', is', hmt, hmi⟩

/-- C1: `Restorable.__exit__` — run on any session state and any recorded
history, whether the body succeeded or raised (`exc` is arbitrary) —
always succeeds: every recorded (class, ident) pair is re-fetched and, if
still present, deleted, and the deletions are committed, so no recorded
identity remains queryable afterwards; recorded identities that no longer
exist are skipped silently (the exit still returns `ok`); rows whose
identity was not recorded survive, and no new rows appear. -/
theorem claim_C1_restorable_exit (exc : Option (Nat × Nat)) (db : DB) (hist : HistD) :
    ∃ db', restorable_exit exc db hist = .ok db' ∧
      (∀ c is i, (c, is) ∈ hist → i ∈ is → query_get db' c i = none) ∧
      (∀ r, r ∈ db.committed →
        (∀ is, (r.cls, is) ∈ hist → r.ident ∉ is) → r ∈ db'.committed) ∧
      (∀ r, r ∈ db'.committed → r ∈ db.committed) := by
  have himp2 : ∀ d : DB, (implicit_begin d).committed = d.committed ∧
      (implicit_begin d).identityMap = d.identityMap ∧
      (implicit_begin d).pendingNew = d.pendingNew ∧
      (implicit_begin d).pendingDel = d.pendingDel := by
    intro d
    rw [implicit_begin]
    split <;> exact ⟨rfl, rfl, rfl, rfl⟩
  have hXpd : ({ DB.expunge_all (DB.rollback db) with autoflush := false } : DB).pendingDel
      = [] := rfl
  have hXcom : ({ DB.expunge_all (DB.rollback db) with autoflush := false } : DB).committed
      = db.committed := rfl
  have hXpn : ({ DB.expunge_all (DB.rollback db) with autoflush := false } : DB).pendingNew
      = [] := rfl
  obtain ⟨d5, hloop, l1, l2, l3, l4, l5, l6, l7⟩ :=
    delete_loop_spec hist
      (implicit_begin { DB.expunge_all (DB.rollback db) with autoflush := false })
      ((himp2 _).2.1.trans rfl)
  have hcom' : ({ d5.commit.close with autoflush := db.autoflush } : DB).committed =
      db.committed.filter (fun r => decide (r ∉ d5.pendingDel)) := by
    show d5.committed.filter (fun r => decide (r ∉ d5.pendingDel)) ++ d5.pendingNew = _
    rw [l1, (himp2 _).1, hXcom, l3, (himp2 _).2.2.1, hXpn, List.append_nil]
  have hpd : ∀ r, r ∈ d5.pendingDel ↔
      r ∈ db.committed ∧ ∃ is, (r.cls, is) ∈ hist ∧ r.ident ∈ is := by
    intro r
    rw [l7 r, (himp2 _).2.2.2, hXpd, (himp2 _).1, hXcom]
    simp
  refine ⟨{ d5.commit.close with autoflush := db.autoflush }, ?_, ?_, ?_, ?_⟩
  · have hbind : restorable_exit exc db hist =
        Except.bind (delete_loop
          (implicit_begin { DB.expunge_all (DB.rollback db) with autoflush := false })
          hist)
          (fun d => Except.ok { d.commit.close with autoflush := db.autoflush }) := rfl
    rw [hbind, hloop]
    rfl
  · intro c is i hin hi
    rw [query_get_of_no_map rfl]
    refine List.find?_eq_none.mpr ?_
    intro r hr hpred
    rw [hcom'] at hr
    obtain ⟨hrc, hnd⟩ := List.mem_filter.mp hr
    have hkey : r.cls = c ∧ r.ident = i := of_decide_eq_true hpred
    have hin' : (r.cls, is) ∈ hist := by rw [hkey.1]; exact hin
    have hi' : r.ident ∈ is := by rw [hkey.2]; exact hi
    exact absurd ((hpd r).mpr ⟨hrc, is, hin', hi'⟩) (of_decide_eq_true hnd)
  · intro r hr hnrec
    rw [hcom']
    refine List.mem_filter.mpr ⟨hr, decide_eq_true ?_⟩
    intro habs
    obtain ⟨_, is, hin, hmi⟩ := (hpd r).mp habs
    exact hnrec is hin hmi
  · intro r hr
    rw [hcom'] at hr
    exact (List.mem_filter.mp hr).1

/-- Witness for C1 at a concrete session and history: the recorded,
still-present row `⟨0, [1]⟩` is gone after exit, the recorded but
already-deleted ident `[3]` is skipped without error, and the unrecorded
row `⟨1, [2]⟩` survives. -/
theorem claim_C1_witness :
    ∃ db', restorable_exit none dbC1 histC1 = .ok db' ∧
      query_get db' 0 [1] = none ∧
      query_get db' 0 [3] = none ∧
      (⟨1, [2]⟩ : Row) ∈ db'.committed := by
  obtain ⟨db', heq, hdel, hpres, _⟩ := claim_C1_restorable_exit none dbC1 histC1
  refine ⟨db', heq, ?_, ?_, ?_⟩
  · exact hdel 0 [[1], [3]] [1] (by simp [histC1]) (by simp)
  · exact hdel 0 [[1], [3]] [3] (by simp [histC1]) (by simp)
  · refine hpres ⟨1, [2]⟩ (by simp [dbC1]) ?_
    intro is h
    simp [histC1] at h

end Testalchemy
